import Mathlib

/-!
Verification of the file-based IPC channel and JSON config merging of
`mcp_server.py` (REAPER MCP server).

The embedding models:
- JSON values (`JsonVal`) as produced by `json.loads` / consumed by `json.dump`;
  objects are association lists in insertion order, matching CPython dicts.
- the command-publish step of `send_command` (lines 115-124) as a list of
  atomic filesystem operations (`FsOp`) applied to a filesystem state (`Fs`),
  so that partially-written temporary files are observable in the trace;
- the response-poll loop of `send_command` (lines 131-151) as a well-founded
  recursion over discrete poll cycles: the monotonic clock captured at loop
  entry is the origin, and after `n` cycles the elapsed time is `n * POLL_INTERVAL`
  (each cycle ends with `time.sleep(POLL_INTERVAL)`; the work inside a cycle is
  idealized as instantaneous). The host side is an environment
  `env : ℕ → Option RspContent` giving the content the host has (re)written to
  the response path just before cycle `n` checks it (`none` = no new write);
- `merge_json_config` / `remove_json_config_key` (lines 158-212) over an
  abstracted file state (`FileState`), with Python `in` / `[]` / `del` / `==`
  semantics on JSON values modelled by `pyContains`, `pyGetItem`, `pySetItem`,
  `pyDelItem` and `pyEq` (TypeError / KeyError / IndexError / AttributeError
  become `PyErr` results).
-/

/-! ### JSON values and association-list primitives -/

/-- A JSON-representable value. Numbers are modelled as integers (the config
values and envelopes at issue contain no fractional numbers). Objects are
association lists in insertion order, as CPython dicts preserve insertion
order; objects produced by `json.loads` have no duplicate keys. -/
inductive JsonVal where
  | null
  | bool (b : Bool)
  | num (n : Int)
  | str (s : String)
  | arr (xs : List JsonVal)
  | obj (kvs : List (String × JsonVal))

/-- Lookup of a key in an object association list (first match). -/
def jlookup : List (String × JsonVal) → String → Option JsonVal
  | [], _ => none
  | (a, v) :: t, k => if a == k then some v else jlookup t k

/-- Python dict membership test on the key list. -/
def hasKey (kvs : List (String × JsonVal)) (k : String) : Bool :=
  (jlookup kvs k).isSome

/-- Python `d[k] = v` on a dict: update in place if the key exists, append at
the end otherwise (CPython insertion-order semantics). -/
def setKey : List (String × JsonVal) → String → JsonVal → List (String × JsonVal)
  | [], k, v => [(k, v)]
  | (a, w) :: t, k, v => if a == k then (a, v) :: t else (a, w) :: setKey t k v

/-- Python `del d[k]` on a dict: remove the (unique) binding of `k`. -/
def delKey : List (String × JsonVal) → String → List (String × JsonVal)
  | [], _ => []
  | (a, w) :: t, k => if a == k then t else (a, w) :: delKey t k

/-- Python substring containment `pat in hay` for strings. The empty pattern
is contained in every string. -/
def strContains (hay pat : String) : Bool :=
  pat.isEmpty || 1 < (hay.splitOn pat).length

/-! ### Python equality on JSON values

`==` between values that came from JSON: `None`, booleans, numbers and strings
compare by value (values of different JSON kinds compare unequal), lists
elementwise, dicts by key set and pointwise value equality, independent of
insertion order. -/

mutual

/-- Python `==` on two JSON values. -/
def pyEq : JsonVal → JsonVal → Bool
  | .null, .null => true
  | .bool a, .bool b => a == b
  | .num a, .num b => a == b
  | .str a, .str b => a == b
  | .arr a, .arr b => pyEqList a b
  | .obj a, .obj b => a.length == b.length && pyEqSub a b
  | _, _ => false

/-- Elementwise Python `==` on two lists. -/
def pyEqList : List JsonVal → List JsonVal → Bool
  | [], [] => true
  | a :: as, b :: bs => pyEq a b && pyEqList as bs
  | _, _ => false

/-- Every binding of the first dict is matched by an equal binding in the
second; together with equal sizes (and no duplicate keys) this is Python dict
equality. -/
def pyEqSub : List (String × JsonVal) → List (String × JsonVal) → Bool
  | [], _ => true
  | kv :: rest, b =>
      (match jlookup b kv.1 with
       | some w => pyEq kv.2 w
       | none => false) && pyEqSub rest b

end

/-- Python `response.get("id") == cmd_id` where `cmd_id` is a string: only a
string value compares equal; a missing key yields `None`, and `None`, numbers,
lists and dicts all compare unequal to a string without raising. -/
def pyEqStrOpt (o : Option JsonVal) (t : String) : Bool :=
  match o with
  | some (.str s) => s == t
  | _ => false

/-- Well-formedness a value obtained from `json.loads` always has: no object
in it carries a duplicate key. -/
def nodupKeys : List (String × JsonVal) → Bool
  | [] => true
  | kv :: rest => !(hasKey rest kv.1) && nodupKeys rest

mutual

/-- No object anywhere inside the value has duplicate keys. -/
def jsonWF : JsonVal → Bool
  | .null => true
  | .bool _ => true
  | .num _ => true
  | .str _ => true
  | .arr xs => jsonWFList xs
  | .obj kvs => nodupKeys kvs && jsonWFKVs kvs

/-- All list elements are well-formed. -/
def jsonWFList : List JsonVal → Bool
  | [] => true
  | x :: xs => jsonWF x && jsonWFList xs

/-- All object values are well-formed. -/
def jsonWFKVs : List (String × JsonVal) → Bool
  | [] => true
  | kv :: rest => jsonWF kv.2 && jsonWFKVs rest

end

/-- Lookup on a JSON value: `jget (obj kvs) k` is the binding of `k`;
anything else has no bindings. -/
def jget : JsonVal → String → Option JsonVal
  | .obj kvs, k => jlookup kvs k
  | _, _ => none

/-- The key list of an object (empty for non-objects). -/
def objKeys : JsonVal → List String
  | .obj kvs => kvs.map (fun kv => kv.1)
  | _ => []

/-! ### Serialization, mirroring `json.dump` / `json.dumps` with the default
separators. Escaping covers the characters that need it in the strings at
issue; `ensure_ascii` escaping of non-ASCII text is not modelled. -/

/-- Escape one character for a JSON string literal. -/
def escapeChar (c : Char) : String :=
  if c = '"' then "\\\""
  else if c = '\\' then "\\\\"
  else if c = '\n' then "\\n"
  else if c = '\t' then "\\t"
  else if c = '\r' then "\\r"
  else String.singleton c

/-- Escape a string for a JSON string literal. -/
def escapeString (s : String) : String :=
  String.join (s.toList.map escapeChar)

mutual

/-- Serialization of a JSON value, as `json.dumps(value)` with the default
separators. -/
def dumps : JsonVal → String
  | .null => "null"
  | .bool true => "true"
  | .bool false => "false"
  | .num n => toString n
  | .str s => "\"" ++ escapeString s ++ "\""
  | .arr xs => "[" ++ dumpsList xs ++ "]"
  | .obj kvs => "\x7b" ++ dumpsObj kvs ++ "\x7d"

/-- Serialization of array elements, comma separated. -/
def dumpsList : List JsonVal → String
  | [] => ""
  | [x] => dumps x
  | x :: xs => dumps x ++ ", " ++ dumpsList xs

/-- Serialization of object bindings, comma separated. -/
def dumpsObj : List (String × JsonVal) → String
  | [] => ""
  | [kv] => "\"" ++ escapeString kv.1 ++ "\": " ++ dumps kv.2
  | kv :: kvs => "\"" ++ escapeString kv.1 ++ "\": " ++ dumps kv.2 ++ ", " ++ dumpsObj kvs

end

/-! ### The command envelope (`send_command`, lines 112-113) -/

/-- Python `params or \x7b\x7d`: `None` becomes the empty dict; a dict is kept
as is (an empty dict is falsy, so it is replaced by a fresh empty dict, which
is the same value). -/
def orEmpty : Option (List (String × JsonVal)) → List (String × JsonVal)
  | none => []
  | some d => d

/-- The command envelope `\x7b"id": cmd_id, "action": action, "params": params or \x7b\x7d\x7d`. -/
def mkCmd (cmdId action : String) (params : Option (List (String × JsonVal))) : JsonVal :=
  .obj [("id", .str cmdId), ("action", .str action), ("params", .obj (orEmpty params))]

/-! ### The response file content as the poller sees it -/

/-- What one poll cycle finds at the response path when the file exists:
a file whose read raises `OSError`, a file whose content does not parse as
JSON, or a file that parses to a JSON value. -/
inductive RspContent where
  | unreadable
  | badJson
  | val (j : JsonVal)

/-! ### The publish step as a trace of atomic filesystem operations
(`send_command`, lines 115-124) -/

/-- State of the channel directory: the bytes at the command path, the open
temporary files (name to current content, newest first), and the response
path content. -/
structure Fs where
  cmd : Option String
  tmp : List (String × String)
  rsp : Option RspContent

/-- One atomic filesystem operation performed by the publish step. -/
inductive FsOp where
  | unlinkRsp
  | createTmp (name : String)
  | writeTmp (name : String) (chunk : String)
  | renameTmpToCmd (name : String)

/-- Content of a temporary file (first match; empty if absent). -/
def tmpGet : List (String × String) → String → String
  | [], _ => ""
  | (a, s) :: t, n => if a == n then s else tmpGet t n

/-- Append a chunk to a temporary file (first match). -/
def tmpWrite : List (String × String) → String → String → List (String × String)
  | [], _, _ => []
  | (a, s) :: t, n, c => if a == n then (a, s ++ c) :: t else (a, s) :: tmpWrite t n c

/-- Remove a temporary file (first match). -/
def tmpDel : List (String × String) → String → List (String × String)
  | [], _ => []
  | (a, s) :: t, n => if a == n then t else (a, s) :: tmpDel t n

/-- Effect of one filesystem operation. `unlinkRsp` is
`RSP_FILE.unlink(missing_ok=True)`; `createTmp` is `tempfile.mkstemp(dir=IPC_DIR)`
(an empty fresh file inside the channel directory); `writeTmp` is one OS-level
write of `json.dump` to the open descriptor; `renameTmpToCmd` is
`os.replace(tmp_path, CMD_FILE)`, atomically installing the full temporary
content at the command path. -/
def applyOp (fs : Fs) : FsOp → Fs
  | .unlinkRsp => { fs with rsp := none }
  | .createTmp n => { fs with tmp := (n, "") :: fs.tmp }
  | .writeTmp n c => { fs with tmp := tmpWrite fs.tmp n c }
  | .renameTmpToCmd n => { fs with cmd := some (tmpGet fs.tmp n), tmp := tmpDel fs.tmp n }

/-- Apply a list of operations in order. -/
def applyOps (fs : Fs) (ops : List FsOp) : Fs :=
  ops.foldl applyOp fs

/-- Concatenation of the write chunks. -/
def concatAll : List String → String
  | [] => ""
  | [c] => c
  | c :: cs => c ++ concatAll cs

/-- The operation sequence of `send_command` lines 115-124: delete any
pre-existing response file, create a temporary file inside the channel
directory, write the serialized envelope to it (in OS-level chunks), then
atomically rename it onto the command path. -/
def publishOps (tmpName : String) (chunks : List String) : List FsOp :=
  FsOp.unlinkRsp :: FsOp.createTmp tmpName ::
    (chunks.map (FsOp.writeTmp tmpName) ++ [FsOp.renameTmpToCmd tmpName])

/-! ### The poll loop (`send_command`, lines 131-151) -/

/-- The timeout diagnostic of `send_command` lines 146-150. -/
def timeoutMsg : String :=
  "Timeout — REAPER did not respond. Make sure reaper_listener.lua is running inside REAPER. Run \x27python mcp_server.py check\x27 for diagnostics."

/-- The synthesized timeout response of `send_command` lines 144-151. -/
def timeoutJson (cmdId : String) : JsonVal :=
  .obj [("id", .str cmdId), ("success", .bool false), ("result", .null),
        ("error", .str timeoutMsg)]

/-- The immediate error response of `send_command` lines 126-129 when the
write or rename raised `OSError`. -/
def writeFailJson (cmdId : String) (e : String) : JsonVal :=
  .obj [("id", .str cmdId), ("success", .bool false), ("result", .null),
        ("error", .str ("Failed to write command file: " ++ e))]

/-- Python exceptions that the modelled code can raise or catch. -/
inductive PyErr where
  | typeError
  | keyError
  | indexError
  | attributeError

/-- One poll cycle over the current response-path content (lines 133-142):
if the file is absent, fall through to the sleep; if reading raises `OSError`,
the exception is caught and the file stays; otherwise the file is read and
unlinked, then parsed — a parse failure is caught and ignored; a parsed
object is returned when `response.get("id") == cmd_id`, discarded otherwise;
a parsed non-object raises `AttributeError` at `response.get` (not caught by
`except (json.JSONDecodeError, OSError)`). The result is the loop outcome of
this cycle (`none` = keep polling) together with the response-path content
after the cycle. -/
def pollCycle (cur : Option RspContent) (cmdId : String) :
    Option (Except PyErr JsonVal) × Option RspContent :=
  match cur with
  | none => (none, none)
  | some .unreadable => (none, some .unreadable)
  | some .badJson => (none, none)
  | some (.val (.obj kvs)) =>
      if pyEqStrOpt (jlookup kvs "id") cmdId then (some (.ok (.obj kvs)), none)
      else (none, none)
  | some (.val _) => (some (.error .attributeError), none)

/-- The response-path content at cycle `n`: the host write just before the
cycle, if any, else whatever the previous cycle left. -/
def curContent (w carried : Option RspContent) : Option RspContent :=
  match w with
  | some c => some c
  | none => carried

/-- The poll loop of lines 131-143: `start = time.monotonic()` is the origin,
cycle `n` runs at elapsed time `n * pollInterval` and the loop guard is
`time.monotonic() - start < TIMEOUT`. When the guard fails the synthesized
timeout response of lines 144-151 is returned. -/
def pollFrom (cmdId : String) (env : ℕ → Option RspContent) (timeout pollInt : ℚ)
    (hpi : 0 < pollInt) (n : ℕ) (carried : Option RspContent) : Except PyErr JsonVal :=
  if h : (n : ℚ) * pollInt < timeout then
    match (pollCycle (curContent (env n) carried) cmdId).1 with
    | some r => r
    | none =>
        pollFrom cmdId env timeout pollInt hpi (n + 1)
          (pollCycle (curContent (env n) carried) cmdId).2
  else .ok (timeoutJson cmdId)
termination_by ⌈timeout / pollInt⌉₊ - n
decreasing_by
  have hn : n < ⌈timeout / pollInt⌉₊ := by rw [Nat.lt_ceil, lt_div_iff₀ hpi]; exact h
  omega

/-- Outcome of the write-and-rename block of lines 120-124: either it
completed, or some step raised `OSError` with the given message. -/
inductive PubResult where
  | ok
  | osError (e : String)

/-- The `send_command` call (lines 109-151). `cmdId` is the fresh
`uuid.uuid4()` value, `tmpName`, `chunks` and `fs` describe the publish trace,
`pub` tells whether the write-and-rename block raised `OSError`, and `env` is
the host behaviour during polling. On a publish failure the error response is
returned immediately and the poll loop is never entered; otherwise the poll
loop starts on the response-path state the publish trace left behind. -/
def send_command (action : String) (params : Option (List (String × JsonVal)))
    (cmdId tmpName : String) (chunks : List String) (fs : Fs) (pub : PubResult)
    (env : ℕ → Option RspContent) (timeout pollInt : ℚ) (hpi : 0 < pollInt) :
    Except PyErr JsonVal :=
  match pub with
  | .osError e => .ok (writeFailJson cmdId e)
  | .ok =>
      pollFrom cmdId env timeout pollInt hpi 0
        (applyOps fs (publishOps tmpName chunks)).rsp

/-! ### The installer JSON config helpers (lines 158-212) -/

/-- State of a JSON config file: absent, present but unreadable (`OSError`),
present with non-empty content that fails `json.loads`, present with
whitespace-only content, or present with content parsing to `j`. -/
inductive FileState where
  | absent
  | unreadable
  | badJson
  | blank
  | valid (j : JsonVal)

/-- The config value `merge_json_config` starts from (lines 164-169): an
absent file or a whitespace-only file yield the empty dict; an unreadable or
unparseable file takes the warn-and-return-False path (`none` here). -/
def readConfig : FileState → Option JsonVal
  | .absent => some (.obj [])
  | .blank => some (.obj [])
  | .valid j => some j
  | .unreadable => none
  | .badJson => none

/-- Python `k in cur` for the values navigated here: dict key membership,
list membership (elementwise `==` against the string key), substring test on
strings; `in` on `None`, booleans and numbers raises `TypeError`. -/
def pyContains (cur : JsonVal) (k : String) : Except PyErr Bool :=
  match cur with
  | .obj kvs => .ok (hasKey kvs k)
  | .arr xs => .ok (xs.any (fun x => pyEq x (.str k)))
  | .str s => .ok (strContains s k)
  | _ => .error .typeError

/-- Python `cur[k]` with a string key: dict lookup (`KeyError` when absent);
indexing a list or string with a string key, or subscripting any other value,
raises `TypeError`. -/
def pyGetItem (cur : JsonVal) (k : String) : Except PyErr JsonVal :=
  match cur with
  | .obj kvs =>
      match jlookup kvs k with
      | some v => .ok v
      | none => .error .keyError
  | _ => .error .typeError

/-- Python `cur[k] = v` with a string key: dict update; anything else raises
`TypeError`. -/
def pySetItem (cur : JsonVal) (k : String) (v : JsonVal) : Except PyErr JsonVal :=
  match cur with
  | .obj kvs => .ok (.obj (setKey kvs k v))
  | _ => .error .typeError

/-- Python `del cur[k]` with a string key: dict deletion; anything else raises
`TypeError`. -/
def pyDelItem (cur : JsonVal) (k : String) : Except PyErr JsonVal :=
  match cur with
  | .obj kvs => .ok (.obj (delKey kvs k))
  | _ => .error .typeError

/-- The navigation-and-set core of `merge_json_config` (lines 176-186) on the
parsed config value: walk `key_path[:-1]`, creating empty dicts for missing
keys; at the final key, return the config unmodified when the present value
already equals `value`, otherwise set it. Python mutates nested dicts through
aliasing; here the updated parent is rebuilt with `pySetItem`. The result is
the updated config and the was-modified flag; an empty `key_path` raises
`IndexError` at `key_path[-1]`. -/
def mergeInto (cur : JsonVal) (key_path : List String) (value : JsonVal) :
    Except PyErr (JsonVal × Bool) :=
  match key_path with
  | [] => .error .indexError
  | [fk] =>
      match pyContains cur fk with
      | .error e => .error e
      | .ok true =>
          match pyGetItem cur fk with
          | .error e => .error e
          | .ok w =>
              if pyEq w value then .ok (cur, false)
              else
                match pySetItem cur fk value with
                | .error e => .error e
                | .ok cur2 => .ok (cur2, true)
      | .ok false =>
          match pySetItem cur fk value with
          | .error e => .error e
          | .ok cur2 => .ok (cur2, true)
  | k :: rest =>
      match pyContains cur k with
      | .error e => .error e
      | .ok b =>
          match (if b then .ok cur else pySetItem cur k (.obj [])) with
          | .error e => .error e
          | .ok cur1 =>
              match pyGetItem cur1 k with
              | .error e => .error e
              | .ok child =>
                  match mergeInto child rest value with
                  | .error e => .error e
                  | .ok (child2, m) =>
                      match pySetItem cur1 k child2 with
                      | .error e => .error e
                      | .ok cur2 => .ok (cur2, m)

/-- The `merge_json_config` function (lines 158-189) over the file state:
read the config (an unreadable or unparseable file returns `False` and leaves
the file untouched), merge, and write the file back only when modified.
The result carries the file state after the call and the returned Bool. -/
def merge_json_config (fs : FileState) (key_path : List String) (value : JsonVal) :
    Except PyErr (FileState × Bool) :=
  match readConfig fs with
  | none => .ok (fs, false)
  | some config =>
      match mergeInto config key_path value with
      | .error e => .error e
      | .ok (config2, modified) =>
          if modified then .ok (.valid config2, true) else .ok (fs, false)

/-- The navigation-and-delete core of `remove_json_config_key`
(lines 201-211): walk `key_path[:-1]`, returning `False` when a key is
absent; at the final key, return `False` when absent, else delete it. -/
def removeFrom (cur : JsonVal) (key_path : List String) :
    Except PyErr (JsonVal × Bool) :=
  match key_path with
  | [] => .error .indexError
  | [fk] =>
      match pyContains cur fk with
      | .error e => .error e
      | .ok true =>
          match pyDelItem cur fk with
          | .error e => .error e
          | .ok cur2 => .ok (cur2, true)
      | .ok false => .ok (cur, false)
  | k :: rest =>
      match pyContains cur k with
      | .error e => .error e
      | .ok true =>
          match pyGetItem cur k with
          | .error e => .error e
          | .ok child =>
              match removeFrom child rest with
              | .error e => .error e
              | .ok (child2, m) =>
                  if m then
                    match pySetItem cur k child2 with
                    | .error e => .error e
                    | .ok cur2 => .ok (cur2, true)
                  else .ok (cur, false)
      | .ok false => .ok (cur, false)

/-- The `remove_json_config_key` function (lines 192-212) over the file
state: an absent, unreadable or unparseable (including empty) file returns
`False` unchanged; otherwise delete the key and write back only when
something was deleted. -/
def remove_json_config_key (fs : FileState) (key_path : List String) :
    Except PyErr (FileState × Bool) :=
  match fs with
  | .valid j =>
      match removeFrom j key_path with
      | .error e => .error e
      | .ok (j2, m) =>
          if m then .ok (.valid j2, true) else .ok (fs, false)
  | _ => .ok (fs, false)

/-- The configuration at issue has every key on `key_path[:-1]` present and
bound to an object, and the final key absent from the innermost object: the
case in which the merge adds exactly one binding and creates no intermediate
containers. -/
def freshLeaf : JsonVal → List String → Bool
  | _, [] => false
  | .obj kvs, [fk] => !(hasKey kvs fk)
  | .obj kvs, k :: rest =>
      match jlookup kvs k with
      | some child => freshLeaf child rest
      | none => false
  | _, _ => false

/-! ### Helper lemmas about the publish trace -/

theorem applyOps_append (fs : Fs) (l1 l2 : List FsOp) :
    applyOps fs (l1 ++ l2) = applyOps (applyOps fs l1) l2 :=
  List.foldl_append _ _ _ _

theorem concatAll_append_head (a b : String) (l : List String) :
    concatAll ((a ++ b) :: l) = a ++ concatAll (b :: l) := by
  cases l with
  | nil => rfl
  | cons x xs => simp [concatAll, String.append_assoc]

theorem concatAll_empty_head (l : List String) :
    concatAll ("" :: l) = concatAll l := by
  cases l with
  | nil => rfl
  | cons x xs => simp [concatAll]

theorem applyOps_writes (cmd : Option String) (rsp : Option RspContent)
    (n : String) (rest : List (String × String)) (cs : List String) (s : String) :
    applyOps ⟨cmd, (n, s) :: rest, rsp⟩ (cs.map (FsOp.writeTmp n)) =
      ⟨cmd, (n, concatAll (s :: cs)) :: rest, rsp⟩ := by
  induction cs generalizing s with
  | nil => rfl
  | cons c cs ih =>
      calc applyOps ⟨cmd, (n, s) :: rest, rsp⟩ ((c :: cs).map (FsOp.writeTmp n))
          = applyOps ⟨cmd, (n, s ++ c) :: rest, rsp⟩ (cs.map (FsOp.writeTmp n)) := by
            simp [applyOps, applyOp, tmpWrite]
        _ = ⟨cmd, (n, concatAll ((s ++ c) :: cs)) :: rest, rsp⟩ := ih (s ++ c)
        _ = ⟨cmd, (n, concatAll (s :: c :: cs)) :: rest, rsp⟩ := by
            rw [concatAll_append_head]
            rfl

theorem applyOps_publish (fs : Fs) (n : String) (chunks : List String) :
    applyOps fs (publishOps n chunks) = ⟨some (concatAll chunks), fs.tmp, none⟩ := by
  have h1 : applyOps fs (publishOps n chunks)
      = applyOps ⟨fs.cmd, (n, "") :: fs.tmp, none⟩
          (chunks.map (FsOp.writeTmp n) ++ [FsOp.renameTmpToCmd n]) := by
    simp [publishOps, applyOps, applyOp]
  rw [h1, applyOps_append, applyOps_writes]
  simp [applyOps, applyOp, tmpGet, tmpDel, concatAll_empty_head]

/-- Operations other than the final rename never touch the command path. -/
def isRename : FsOp → Bool
  | .renameTmpToCmd _ => true
  | _ => false

theorem applyOp_cmd (fs : Fs) (op : FsOp) (h : isRename op = false) :
    (applyOp fs op).cmd = fs.cmd := by
  cases op <;> simp_all [applyOp, isRename]

theorem applyOps_cmd (ops : List FsOp) (h : ∀ op ∈ ops, isRename op = false) :
    ∀ fs, (applyOps fs ops).cmd = fs.cmd := by
  induction ops with
  | nil => intro fs; rfl
  | cons op ops ih =>
      intro fs
      have h1 := h op (List.mem_cons_self _ _)
      have h2 : ∀ o ∈ ops, isRename o = false := fun o ho => h o (List.mem_cons_of_mem _ ho)
      calc (applyOps fs (op :: ops)).cmd = (applyOps (applyOp fs op) ops).cmd := rfl
        _ = (applyOp fs op).cmd := ih h2 _
        _ = fs.cmd := applyOp_cmd _ _ h1

theorem applyOp_rsp_none (fs : Fs) (op : FsOp) (h : fs.rsp = none) :
    (applyOp fs op).rsp = none := by
  cases op <;> simp_all [applyOp]

theorem applyOps_rsp_none (ops : List FsOp) :
    ∀ fs, fs.rsp = none → (applyOps fs ops).rsp = none := by
  induction ops with
  | nil => intro fs h; exact h
  | cons op ops ih =>
      intro fs h
      exact ih (applyOp fs op) (applyOp_rsp_none fs op h)

theorem prefixSnoc {α : Type} {p l : List α} {a : α} (h : p <+: l ++ [a]) :
    p <+: l ∨ p = l ++ [a] := by
  obtain ⟨r, hr⟩ := h
  rcases r.eq_nil_or_concat with rfl | ⟨r2, b, rfl⟩
  · right; simpa using hr
  · left
    refine ⟨r2, ?_⟩
    have := congrArg (fun x => x.dropLast) hr
    simpa [← List.append_assoc] using this

theorem prefixCons {α : Type} {p : List α} {x : α} {xs : List α} (h : p <+: x :: xs) :
    p = [] ∨ ∃ q, p = x :: q ∧ q <+: xs := by
  rcases p with _ | ⟨y, q⟩
  · exact Or.inl rfl
  · rw [List.cons_prefix_cons] at h
    exact Or.inr ⟨q, by rw [h.1], h.2⟩

/-! ### Helper lemmas about the poll loop -/

/-- A response-path content on which the poll cycle neither returns nor
raises: the loop keeps polling. -/
def quietCycle (w : Option RspContent) (cmdId : String) : Prop :=
  (pollCycle w cmdId).1 = none

theorem pollCycle_snd (cur : Option RspContent) (cmdId : String) :
    (pollCycle cur cmdId).2 = none ∨ (pollCycle cur cmdId).2 = some .unreadable := by
  rcases cur with _ | c
  · left; rfl
  rcases c with _ | _ | j
  · right; rfl
  · left; rfl
  · rcases j with _ | b | i | s | xs | kvs
    · left; rfl
    · left; rfl
    · left; rfl
    · left; rfl
    · left; rfl
    · left
      by_cases h : pyEqStrOpt (jlookup kvs "id") cmdId = true
      · simp [pollCycle, h]
      · simp [pollCycle, h]

theorem pollCycle_snd_quiet (cur : Option RspContent) (cmdId : String) :
    quietCycle (pollCycle cur cmdId).2 cmdId := by
  rcases pollCycle_snd cur cmdId with h | h
  · rw [h]; rfl
  · rw [h]; rfl

theorem pollCycle_ok (cur : Option RspContent) (cmdId : String) (j : JsonVal)
    (h : (pollCycle cur cmdId).1 = some (.ok j)) :
    ∃ kvs, j = .obj kvs ∧ pyEqStrOpt (jlookup kvs "id") cmdId = true := by
  rcases cur with _ | c
  · cases h
  rcases c with _ | _ | jj
  · cases h
  · cases h
  · rcases jj with _ | b | i | s | xs | kvs
    · cases h
    · cases h
    · cases h
    · cases h
    · cases h
    · by_cases hm : pyEqStrOpt (jlookup kvs "id") cmdId = true
      · refine ⟨kvs, ?_, hm⟩
        simp [pollCycle, hm] at h
        exact h.symm
      · simp [pollCycle, hm] at h

theorem curContent_quiet (w carried : Option RspContent) (cmdId : String)
    (hw : quietCycle w cmdId) (hc : quietCycle carried cmdId) :
    quietCycle (curContent w carried) cmdId := by
  cases w with
  | some c => exact hw
  | none => exact hc

theorem guard_false_of_ceil_le (t pint : ℚ) (hpi : 0 < pint) (n : ℕ)
    (hk : ⌈t / pint⌉₊ ≤ n) : ¬ ((n : ℚ) * pint < t) := by
  intro h
  have hn : n < ⌈t / pint⌉₊ := by rw [Nat.lt_ceil, lt_div_iff₀ hpi]; exact h
  omega

theorem pollFrom_quiet (cmdId : String) (env : ℕ → Option RspContent)
    (t pint : ℚ) (hpi : 0 < pint) (henv : ∀ m, quietCycle (env m) cmdId) :
    ∀ k n carried, ⌈t / pint⌉₊ - n ≤ k → quietCycle carried cmdId →
      pollFrom cmdId env t pint hpi n carried = .ok (timeoutJson cmdId) := by
  intro k
  induction k with
  | zero =>
      intro n carried hk hq
      rw [pollFrom, dif_neg (guard_false_of_ceil_le t pint hpi n (by omega))]
  | succ k ih =>
      intro n carried hk hq
      rw [pollFrom]
      by_cases h : (n : ℚ) * pint < t
      · rw [dif_pos h]
        have hcur : quietCycle (curContent (env n) carried) cmdId :=
          curContent_quiet _ _ _ (henv n) hq
      -- the cycle does not return: reduce the match and recurse
        rw [show ((pollCycle (curContent (env n) carried) cmdId).1 = none) from hcur]
        have hn : n < ⌈t / pint⌉₊ := by rw [Nat.lt_ceil, lt_div_iff₀ hpi]; exact h
        exact ih (n + 1) _ (by omega) (pollCycle_snd_quiet _ _)
      · rw [dif_neg h]

theorem pollFrom_matching_id (cmdId : String) (env : ℕ → Option RspContent)
    (t pint : ℚ) (hpi : 0 < pint) :
    ∀ k n carried, ⌈t / pint⌉₊ - n ≤ k →
      (carried = none ∨ carried = some .unreadable) →
      ∀ j, pollFrom cmdId env t pint hpi n carried = .ok j →
        j = timeoutJson cmdId ∨
          ∃ kvs, j = .obj kvs ∧ pyEqStrOpt (jlookup kvs "id") cmdId = true := by
  intro k
  induction k with
  | zero =>
      intro n carried hk hcar j hj
      rw [pollFrom, dif_neg (guard_false_of_ceil_le t pint hpi n (by omega))] at hj
      cases hj
      exact Or.inl rfl
  | succ k ih =>
      intro n carried hk hcar j hj
      rw [pollFrom] at hj
      by_cases h : (n : ℚ) * pint < t
      · rw [dif_pos h] at hj
        cases h1 : (pollCycle (curContent (env n) carried) cmdId).1 with
        | some r =>
            rw [h1] at hj
            cases hj
            exact Or.inr (pollCycle_ok _ _ _ h1)
        | none =>
            rw [h1] at hj
            have hn : n < ⌈t / pint⌉₊ := by rw [Nat.lt_ceil, lt_div_iff₀ hpi]; exact h
            exact ih (n + 1) _ (by omega) (pollCycle_snd _ _) j hj
      · rw [dif_neg h] at hj
        cases hj
        exact Or.inl rfl

theorem pollFrom_no_raise (cmdId : String) (env : ℕ → Option RspContent)
    (t pint : ℚ) (hpi : 0 < pint)
    (henv : ∀ m j, env m = some (.val j) → ∃ kvs, j = .obj kvs) :
    ∀ k n carried, ⌈t / pint⌉₊ - n ≤ k →
      (carried = none ∨ carried = some .unreadable) →
      ∃ j, pollFrom cmdId env t pint hpi n carried = .ok j := by
  intro k
  induction k with
  | zero =>
      intro n carried hk hcar
      rw [pollFrom, dif_neg (guard_false_of_ceil_le t pint hpi n (by omega))]
      exact ⟨timeoutJson cmdId, rfl⟩
  | succ k ih =>
      intro n carried hk hcar
      rw [pollFrom]
      by_cases h : (n : ℚ) * pint < t
      · rw [dif_pos h]
        have hnoerr : (pollCycle (curContent (env n) carried) cmdId).1 = none ∨
            ∃ j, (pollCycle (curContent (env n) carried) cmdId).1 = some (.ok j) := by
          cases hw : env n with
          | none =>
              rcases hcar with rfl | rfl
              · exact Or.inl (by simp [curContent, hw, pollCycle])
              · exact Or.inl (by simp [curContent, hw, pollCycle])
          | some w =>
              cases w with
              | unreadable => exact Or.inl (by simp [curContent, hw, pollCycle])
              | badJson => exact Or.inl (by simp [curContent, hw, pollCycle])
              | val j =>
                  obtain ⟨kvs, rfl⟩ := henv n j hw
                  by_cases hm : pyEqStrOpt (jlookup kvs "id") cmdId = true
                  · exact Or.inr ⟨.obj kvs, by simp [curContent, hw, pollCycle, hm]⟩
                  · exact Or.inl (by simp [curContent, hw, pollCycle, hm])
        have hn : n < ⌈t / pint⌉₊ := by rw [Nat.lt_ceil, lt_div_iff₀ hpi]; exact h
        rcases hnoerr with h1 | ⟨j, h1⟩
        · rw [h1]
          exact ih (n + 1) _ (by omega) (pollCycle_snd _ _)
        · rw [h1]
          exact ⟨j, rfl⟩
      · rw [dif_neg h]
        exact ⟨timeoutJson cmdId, rfl⟩

/-! ### Helper lemmas about the config association lists -/

theorem jlookup_setKey_self (l : List (String × JsonVal)) (k : String) (v : JsonVal) :
    jlookup (setKey l k v) k = some v := by
  induction l with
  | nil => simp [setKey, jlookup]
  | cons kv t ih =>
      obtain ⟨a, w⟩ := kv
      by_cases h : a = k
      · simp [setKey, jlookup, h]
      · simp [setKey, jlookup, h, ih]

theorem hasKey_setKey (l : List (String × JsonVal)) (k : String) (v : JsonVal) :
    hasKey (setKey l k v) k = true := by
  simp [hasKey, jlookup_setKey_self]

theorem setKey_setKey_self (l : List (String × JsonVal)) (k : String) (v w : JsonVal) :
    setKey (setKey l k v) k w = setKey l k w := by
  induction l with
  | nil => simp [setKey]
  | cons kv t ih =>
      obtain ⟨a, u⟩ := kv
      by_cases h : a = k
      · simp [setKey, h]
      · simp [setKey, h, ih]

theorem setKey_lookup_self (l : List (String × JsonVal)) (k : String) (v : JsonVal)
    (h : jlookup l k = some v) : setKey l k v = l := by
  induction l with
  | nil => cases h
  | cons kv t ih =>
      obtain ⟨a, u⟩ := kv
      by_cases ha : a = k
      · simp [jlookup, ha] at h
        simp [setKey, ha, h]
      · simp [jlookup, ha] at h
        simp [setKey, ha, ih h]

theorem setKey_absent_append (l : List (String × JsonVal)) (k : String) (v : JsonVal)
    (h : jlookup l k = none) : setKey l k v = l ++ [(k, v)] := by
  induction l with
  | nil => rfl
  | cons kv t ih =>
      obtain ⟨a, u⟩ := kv
      by_cases ha : a = k
      · simp [jlookup, ha] at h
      · simp [jlookup, ha] at h
        simp [setKey, ha, ih h]

theorem delKey_append_absent (l : List (String × JsonVal)) (k : String) (v : JsonVal)
    (h : jlookup l k = none) : delKey (l ++ [(k, v)]) k = l := by
  induction l with
  | nil => simp [delKey]
  | cons kv t ih =>
      obtain ⟨a, u⟩ := kv
      by_cases ha : a = k
      · simp [jlookup, ha] at h
      · simp [jlookup, ha] at h
        simp [delKey, ha, ih h]

theorem delKey_setKey_absent (l : List (String × JsonVal)) (k : String) (v : JsonVal)
    (h : jlookup l k = none) : delKey (setKey l k v) k = l := by
  rw [setKey_absent_append l k v h, delKey_append_absent l k v h]

/-! ### Reflexivity of Python equality on duplicate-free values -/

theorem jsonWFList_mem (xs : List JsonVal) (h : jsonWFList xs = true) :
    ∀ x ∈ xs, jsonWF x = true := by
  induction xs with
  | nil => intro x hx; cases hx
  | cons y ys ih =>
      intro x hx
      simp [jsonWFList] at h
      rcases List.mem_cons.mp hx with rfl | hx2
      · exact h.1
      · exact ih h.2 x hx2

theorem jsonWFKVs_mem (kvs : List (String × JsonVal)) (h : jsonWFKVs kvs = true) :
    ∀ kv ∈ kvs, jsonWF kv.2 = true := by
  induction kvs with
  | nil => intro kv hkv; cases hkv
  | cons hd t ih =>
      intro kv hkv
      simp [jsonWFKVs] at h
      rcases List.mem_cons.mp hkv with rfl | hkv2
      · exact h.1
      · exact ih h.2 kv hkv2

theorem nodup_lookup (kvs : List (String × JsonVal)) (hnd : nodupKeys kvs = true) :
    ∀ kv ∈ kvs, jlookup kvs kv.1 = some kv.2 := by
  induction kvs with
  | nil => intro kv h; cases h
  | cons hd t ih =>
      intro kv hm
      simp [nodupKeys] at hnd
      obtain ⟨a, w⟩ := hd
      rcases List.mem_cons.mp hm with heq | hm2
      · rw [heq]
        simp [jlookup]
      · have hl := ih hnd.2 kv hm2
        by_cases hak : a = kv.1
        · exfalso
          have : hasKey t a = true := by
            simp [hasKey, hak, hl]
          simp [this] at hnd
        · simp [jlookup, hak, hl]

theorem pyEqSub_of (a b : List (String × JsonVal))
    (h : ∀ kv ∈ a, ∃ w, jlookup b kv.1 = some w ∧ pyEq kv.2 w = true) :
    pyEqSub a b = true := by
  induction a with
  | nil => rfl
  | cons kv rest ih =>
      obtain ⟨w, hw, hpe⟩ := h kv (List.mem_cons_self _ _)
      have hrest := ih (fun kv2 h2 => h kv2 (List.mem_cons_of_mem _ h2))
      simp [pyEqSub, hw, hpe, hrest]

theorem pyEqList_self (xs : List JsonVal) (h : ∀ x ∈ xs, pyEq x x = true) :
    pyEqList xs xs = true := by
  induction xs with
  | nil => rfl
  | cons y ys ih =>
      have h1 := h y (List.mem_cons_self _ _)
      have h2 := ih (fun x hx => h x (List.mem_cons_of_mem _ hx))
      simp [pyEqList, h1, h2]

theorem pyEq_refl : ∀ (j : JsonVal), jsonWF j = true → pyEq j j = true
  | .null, _ => rfl
  | .bool b, _ => by simp [pyEq]
  | .num n, _ => by simp [pyEq]
  | .str s, _ => by simp [pyEq]
  | .arr xs, h => by
      have hx : ∀ x ∈ xs, pyEq x x = true := fun x hm =>
        pyEq_refl x (jsonWFList_mem xs h x hm)
      simp [pyEq, pyEqList_self xs hx]
  | .obj kvs, h => by
      have hnd : nodupKeys kvs = true := by
        simp [jsonWF] at h; exact h.1
      have hwf : jsonWFKVs kvs = true := by
        simp [jsonWF] at h; exact h.2
      have hsub : pyEqSub kvs kvs = true := by
        apply pyEqSub_of
        intro kv hm
        exact ⟨kv.2, nodup_lookup kvs hnd kv hm,
          pyEq_refl kv.2 (jsonWFKVs_mem kvs hwf kv hm)⟩
      simp [pyEq, hsub]
termination_by j => sizeOf j
decreasing_by
  all_goals
    simp_wf
    try (have h0 := List.sizeOf_lt_of_mem hm; omega)
    try
      (have h1 := List.sizeOf_lt_of_mem hm
       have h2 : sizeOf kv.2 < sizeOf kv := by
         obtain ⟨a, w⟩ := kv
         show sizeOf w < sizeOf (a, w)
         rw [Prod.mk.sizeOf_spec]
         omega
       omega)

/-! ### Idempotence and reversibility of the merge core -/

theorem mergeInto_idem (v : JsonVal) (hv : pyEq v v = true) :
    ∀ (kp : List String) (cur cur2 : JsonVal) (b : Bool),
      mergeInto cur kp v = .ok (cur2, b) → mergeInto cur2 kp v = .ok (cur2, false) := by
  intro kp
  induction kp with
  | nil =>
      intro cur cur2 b h
      simp [mergeInto] at h
  | cons k rest ih =>
      intro cur cur2 b h
      cases rest with
      | nil =>
          cases cur with
          | obj kvs =>
              by_cases hk : hasKey kvs k = true
              · obtain ⟨w, hw⟩ : ∃ w, jlookup kvs k = some w := by
                  simpa [hasKey, Option.isSome_iff_exists] using hk
                by_cases hpe : pyEq w v = true
                · have h2 : mergeInto (.obj kvs) [k] v = .ok (.obj kvs, false) := by
                    simp [mergeInto, pyContains, hk, pyGetItem, hw, hpe]
                  rw [h2] at h
                  cases h
                  exact h2
                · have h2 : mergeInto (.obj kvs) [k] v
                      = .ok (.obj (setKey kvs k v), true) := by
                    simp [mergeInto, pyContains, hk, pyGetItem, hw, hpe, pySetItem]
                  rw [h2] at h
                  cases h
                  simp [mergeInto, pyContains, hasKey_setKey, pyGetItem,
                    jlookup_setKey_self, hv]
              · rw [Bool.not_eq_true] at hk
                have h2 : mergeInto (.obj kvs) [k] v
                    = .ok (.obj (setKey kvs k v), true) := by
                  simp [mergeInto, pyContains, hk, pySetItem]
                rw [h2] at h
                cases h
                simp [mergeInto, pyContains, hasKey_setKey, pyGetItem,
                  jlookup_setKey_self, hv]
          | null => simp [mergeInto, pyContains] at h
          | bool bb => simp [mergeInto, pyContains] at h
          | num nn => simp [mergeInto, pyContains] at h
          | str s =>
              by_cases hc : strContains s k = true
              · simp [mergeInto, pyContains, hc, pyGetItem] at h
              · rw [Bool.not_eq_true] at hc
                simp [mergeInto, pyContains, hc, pySetItem] at h
          | arr xs =>
              by_cases hc : (xs.any (fun x => pyEq x (.str k))) = true
              · simp [mergeInto, pyContains, hc, pyGetItem] at h
              · rw [Bool.not_eq_true] at hc
                simp [mergeInto, pyContains, hc, pySetItem] at h
      | cons r rs =>
          cases cur with
          | obj kvs =>
              by_cases hk : hasKey kvs k = true
              · obtain ⟨child0, hw⟩ : ∃ w, jlookup kvs k = some w := by
                  simpa [hasKey, Option.isSome_iff_exists] using hk
                cases hrec : mergeInto child0 (r :: rs) v with
                | error e =>
                    simp [mergeInto, pyContains, hk, pyGetItem, hw, hrec] at h
                | ok p =>
                    obtain ⟨child2, m⟩ := p
                    have h2 : mergeInto (.obj kvs) (k :: r :: rs) v
                        = .ok (.obj (setKey kvs k child2), m) := by
                      simp [mergeInto, pyContains, hk, pyGetItem, hw, hrec, pySetItem]
                    rw [h2] at h
                    cases h
                    have hrec2 : mergeInto child2 (r :: rs) v = .ok (child2, false) :=
                      ih child0 child2 _ hrec
                    simp [mergeInto, pyContains, hasKey_setKey, pyGetItem,
                      jlookup_setKey_self, hrec2, pySetItem, setKey_setKey_self]
              · rw [Bool.not_eq_true] at hk
                cases hrec : mergeInto (.obj []) (r :: rs) v with
                | error e =>
                    simp [mergeInto, pyContains, hk, pySetItem, pyGetItem,
                      jlookup_setKey_self, hrec] at h
                | ok p =>
                    obtain ⟨child2, m⟩ := p
                    have h2 : mergeInto (.obj kvs) (k :: r :: rs) v
                        = .ok (.obj (setKey (setKey kvs k (.obj [])) k child2), m) := by
                      simp [mergeInto, pyContains, hk, pySetItem, pyGetItem,
                        jlookup_setKey_self, hrec]
                    rw [setKey_setKey_self] at h2
                    rw [h2] at h
                    cases h
                    have hrec2 : mergeInto child2 (r :: rs) v = .ok (child2, false) :=
                      ih (.obj []) child2 _ hrec
                    simp [mergeInto, pyContains, hasKey_setKey, pyGetItem,
                      jlookup_setKey_self, hrec2, pySetItem, setKey_setKey_self]
          | null => simp [mergeInto, pyContains] at h
          | bool bb => simp [mergeInto, pyContains] at h
          | num nn => simp [mergeInto, pyContains] at h
          | str s =>
              by_cases hc : strContains s k = true
              · simp [mergeInto, pyContains, hc, pyGetItem] at h
              · rw [Bool.not_eq_true] at hc
                simp [mergeInto, pyContains, hc, pySetItem] at h
          | arr xs =>
              by_cases hc : (xs.any (fun x => pyEq x (.str k))) = true
              · simp [mergeInto, pyContains, hc, pyGetItem] at h
              · rw [Bool.not_eq_true] at hc
                simp [mergeInto, pyContains, hc, pySetItem] at h

theorem mergeInto_removeFrom (v : JsonVal) :
    ∀ (kp : List String) (c : JsonVal), freshLeaf c kp = true →
      ∃ c2, mergeInto c kp v = .ok (c2, true) ∧ removeFrom c2 kp = .ok (c, true) := by
  intro kp
  induction kp with
  | nil =>
      intro c h
      simp [freshLeaf] at h
  | cons k rest ih =>
      intro c h
      cases rest with
      | nil =>
          cases c with
          | obj kvs =>
              have hk : hasKey kvs k = false := by
                simpa [freshLeaf] using h
              have hnone : jlookup kvs k = none := by
                simpa [hasKey, Option.isSome_iff_exists, Option.eq_none_iff_forall_not_mem]
                  using hk
              refine ⟨.obj (setKey kvs k v), ?_, ?_⟩
              · simp [mergeInto, pyContains, hk, pySetItem]
              · simp [removeFrom, pyContains, hasKey_setKey, pyDelItem,
                  delKey_setKey_absent kvs k v hnone]
          | null => simp [freshLeaf] at h
          | bool bb => simp [freshLeaf] at h
          | num nn => simp [freshLeaf] at h
          | str s => simp [freshLeaf] at h
          | arr xs => simp [freshLeaf] at h
      | cons r rs =>
          cases c with
          | obj kvs =>
              have h2 : (match jlookup kvs k with
                  | some child => freshLeaf child (r :: rs)
                  | none => false) = true := by
                simpa [freshLeaf] using h
              cases hw : jlookup kvs k with
              | none => rw [hw] at h2; cases h2
              | some child =>
                  rw [hw] at h2
                  obtain ⟨c2, hm, hr⟩ := ih child h2
                  have hk : hasKey kvs k = true := by simp [hasKey, hw]
                  refine ⟨.obj (setKey kvs k c2), ?_, ?_⟩
                  · simp [mergeInto, pyContains, hk, pyGetItem, hw, hm, pySetItem]
                  · simp [removeFrom, pyContains, hasKey_setKey, pyGetItem,
                      jlookup_setKey_self, hr, pySetItem, setKey_setKey_self,
                      setKey_lookup_self kvs k child hw]
          | null => simp [freshLeaf] at h
          | bool bb => simp [freshLeaf] at h
          | num nn => simp [freshLeaf] at h
          | str s => simp [freshLeaf] at h
          | arr xs => simp [freshLeaf] at h

/-! ### Claim theorems -/

/-- Claim C1: publishing the command envelope serializes it to a temporary
file created inside the channel directory and then atomically renames that
temporary file onto the command path, so the content observable at the
command path at every point of the publish trace is either the previous
complete command (or nothing) or the complete new envelope, never a truncated
intermediate; after the full trace it is the complete new envelope. -/
theorem claim1_atomic_publish (fs : Fs) (cmdId action tmpName : String)
    (params : Option (List (String × JsonVal))) (chunks : List String)
    (h : concatAll chunks = dumps (mkCmd cmdId action params)) :
    (∀ p, p <+: publishOps tmpName chunks →
      (applyOps fs p).cmd = fs.cmd ∨
        (applyOps fs p).cmd = some (dumps (mkCmd cmdId action params)))
    ∧ (applyOps fs (publishOps tmpName chunks)).cmd
        = some (dumps (mkCmd cmdId action params)) := by
  have hfull : (applyOps fs (publishOps tmpName chunks)).cmd
      = some (dumps (mkCmd cmdId action params)) := by
    rw [applyOps_publish, ← h]
  refine ⟨?_, hfull⟩
  intro p hp
  have hdecomp : publishOps tmpName chunks
      = (FsOp.unlinkRsp :: FsOp.createTmp tmpName :: chunks.map (FsOp.writeTmp tmpName))
        ++ [FsOp.renameTmpToCmd tmpName] := by
    simp [publishOps]
  rw [hdecomp] at hp
  rcases prefixSnoc hp with hpre | rfl
  · left
    apply applyOps_cmd
    intro op hop
    have hmem := hpre.subset hop
    simp only [List.mem_cons, List.mem_map] at hmem
    rcases hmem with rfl | rfl | ⟨c, hc, rfl⟩
    · rfl
    · rfl
    · rfl
  · right
    rw [← hdecomp]
    exact hfull

/-- Witness for C1: a concrete initial state holding an old command and a
stale response, a concrete envelope, and the serialized bytes written in one
chunk. -/
theorem claim1_witness :
    concatAll [dumps (mkCmd "abc" "ping" none)] = dumps (mkCmd "abc" "ping" none)
    ∧ ((∀ p, p <+: publishOps "t0" [dumps (mkCmd "abc" "ping" none)] →
        (applyOps ⟨some "old", [], some .badJson⟩ p).cmd
            = (⟨some "old", [], some .badJson⟩ : Fs).cmd ∨
          (applyOps ⟨some "old", [], some .badJson⟩ p).cmd
            = some (dumps (mkCmd "abc" "ping" none)))
      ∧ (applyOps ⟨some "old", [], some .badJson⟩
            (publishOps "t0" [dumps (mkCmd "abc" "ping" none)])).cmd
          = some (dumps (mkCmd "abc" "ping" none))) :=
  ⟨rfl, claim1_atomic_publish ⟨some "old", [], some .badJson⟩ "abc" "ping" "t0" none
    [dumps (mkCmd "abc" "ping" none)] rfl⟩

/-- Claim C2: the publish step deletes any pre-existing response file before
the new command file is written — the response path is empty at every trace
point where the command path has already changed, and empty after the full
publish — and consequently a leftover response is never returned as the
answer of a new call: every value the new call returns carries the new call
id. -/
theorem claim2_response_deleted_first (fs : Fs) (tmpName : String)
    (chunks : List String) (action : String)
    (params : Option (List (String × JsonVal))) (cmdId : String)
    (env : ℕ → Option RspContent) (t pint : ℚ) (hpi : 0 < pint) :
    (applyOps fs (publishOps tmpName chunks)).rsp = none
    ∧ (∀ p, p <+: publishOps tmpName chunks →
        (applyOps fs p).cmd = fs.cmd ∨ (applyOps fs p).rsp = none)
    ∧ (∀ j, send_command action params cmdId tmpName chunks fs .ok env t pint hpi
          = .ok j → pyEqStrOpt (jget j "id") cmdId = true) := by
  refine ⟨?_, ?_, ?_⟩
  · rw [applyOps_publish]
  · intro p hp
    simp only [publishOps] at hp
    rcases prefixCons hp with rfl | ⟨q, rfl, hq⟩
    · left
      rfl
    · right
      exact applyOps_rsp_none q (applyOp fs .unlinkRsp) rfl
  · intro j hj
    have hr : (applyOps fs (publishOps tmpName chunks)).rsp = none := by
      rw [applyOps_publish]
    simp only [send_command] at hj
    rw [hr] at hj
    have hprov := pollFrom_matching_id cmdId env t pint hpi (⌈t / pint⌉₊) 0 none
      (by omega) (Or.inl rfl) j hj
    rcases hprov with rfl | ⟨kvs, rfl, hid⟩
    · simp [timeoutJson, jget, jlookup, pyEqStrOpt]
    · simpa [jget] using hid

/-- Witness for C2: a concrete call over an initial state that still holds a
stale response file and a host that never answers. -/
theorem claim2_witness :
    (0 : ℚ) < 1
    ∧ ((applyOps ⟨none, [], some (.val (.obj [("id", .str "old")]))⟩
          (publishOps "t0" ["x"])).rsp = none
      ∧ (∀ p, p <+: publishOps "t0" ["x"] →
          (applyOps ⟨none, [], some (.val (.obj [("id", .str "old")]))⟩ p).cmd
              = (⟨none, [], some (.val (.obj [("id", .str "old")]))⟩ : Fs).cmd ∨
            (applyOps ⟨none, [], some (.val (.obj [("id", .str "old")]))⟩ p).rsp = none)
      ∧ (∀ j, send_command "ping" none "c0" "t0" ["x"]
            ⟨none, [], some (.val (.obj [("id", .str "old")]))⟩ .ok
            (fun _ => none) 1 1 one_pos = .ok j →
          pyEqStrOpt (jget j "id") "c0" = true)) :=
  ⟨one_pos, claim2_response_deleted_first
    ⟨none, [], some (.val (.obj [("id", .str "old")]))⟩ "t0" ["x"] "ping" none "c0"
    (fun _ => none) 1 1 one_pos⟩

/-- Counterexample to claim C3 as stated: a poll cycle that reads a response
whose id does not match the outstanding id leaves the loop polling, but the
response file is not left on disk for the next poll cycle — the code unlinks
the file before checking the id, so after the cycle the response path is
empty rather than still holding the stale response. -/
theorem claim3_counterexample :
    (pollCycle (some (.val (.obj [("id", .str "stale")]))) "fresh0").1 = none
    ∧ (pollCycle (some (.val (.obj [("id", .str "stale")]))) "fresh0").2
        ≠ some (.val (.obj [("id", .str "stale")])) := by
  constructor
  · rfl
  · intro hcon
    exact Option.noConfusion hcon

/-- Claim C3, amended: a response whose parsed id does not equal the
outstanding id is ignored (the cycle neither returns it nor stops the loop)
and the call keeps polling until a matching response or the deadline — any
value the call returns is the synthesized timeout or an object whose id
matches — but the non-matching file is consumed (deleted) by the cycle that
read it rather than left on disk. -/
theorem claim3_nonmatching_ignored_consumed (kvs : List (String × JsonVal))
    (cmdId : String) (hne : pyEqStrOpt (jlookup kvs "id") cmdId = false)
    (action : String) (params : Option (List (String × JsonVal))) (tmpName : String)
    (chunks : List String) (fs : Fs) (env : ℕ → Option RspContent)
    (t pint : ℚ) (hpi : 0 < pint) :
    pollCycle (some (.val (.obj kvs))) cmdId = (none, none)
    ∧ (∀ j, send_command action params cmdId tmpName chunks fs .ok env t pint hpi
          = .ok j →
        j = timeoutJson cmdId ∨
          ∃ kvs2, j = .obj kvs2 ∧ pyEqStrOpt (jlookup kvs2 "id") cmdId = true) := by
  constructor
  · simp [pollCycle, hne]
  · intro j hj
    have hr : (applyOps fs (publishOps tmpName chunks)).rsp = none := by
      rw [applyOps_publish]
    simp only [send_command] at hj
    rw [hr] at hj
    exact pollFrom_matching_id cmdId env t pint hpi (⌈t / pint⌉₊) 0 none
      (by omega) (Or.inl rfl) j hj

/-- Witness for the amended C3 at a concrete stale id and call. -/
theorem claim3_witness :
    pyEqStrOpt (jlookup [("id", JsonVal.str "stale")] "id") "fresh0" = false
    ∧ (0 : ℚ) < 1
    ∧ (pollCycle (some (.val (.obj [("id", JsonVal.str "stale")]))) "fresh0" = (none, none)
      ∧ (∀ j, send_command "ping" none "fresh0" "t0" ["x"] ⟨none, [], none⟩ .ok
            (fun _ => none) 1 1 one_pos = .ok j →
          j = timeoutJson "fresh0" ∨
            ∃ kvs2, j = .obj kvs2 ∧ pyEqStrOpt (jlookup kvs2 "id") "fresh0" = true)) :=
  ⟨rfl, one_pos, claim3_nonmatching_ignored_consumed [("id", .str "stale")] "fresh0" rfl
    "ping" none "t0" ["x"] ⟨none, [], none⟩ (fun _ => none) 1 1 one_pos⟩

/-- Claim C4: the poll loop is bounded by the deadline measured from the
monotonic origin captured at loop entry; if no cycle observes a matching
response, the call returns the synthesized timeout outcome whose success
field is false and whose error text explains that REAPER did not respond and
that the listener may not be running; the total slept time, the number of
loop cycles times the poll interval, is below timeout plus one poll
interval. -/
theorem claim4_timeout_bound (action : String)
    (params : Option (List (String × JsonVal))) (cmdId tmpName : String)
    (chunks : List String) (fs : Fs) (env : ℕ → Option RspContent)
    (t pint : ℚ) (hpi : 0 < pint) (ht : 0 ≤ t)
    (henv : ∀ m, quietCycle (env m) cmdId) :
    send_command action params cmdId tmpName chunks fs .ok env t pint hpi
      = .ok (timeoutJson cmdId)
    ∧ jget (timeoutJson cmdId) "success" = some (.bool false)
    ∧ jget (timeoutJson cmdId) "error" = some (.str timeoutMsg)
    ∧ (⌈t / pint⌉₊ : ℚ) * pint < t + pint := by
  refine ⟨?_, rfl, rfl, ?_⟩
  · have hr : (applyOps fs (publishOps tmpName chunks)).rsp = none := by
      rw [applyOps_publish]
    simp only [send_command]
    rw [hr]
    exact pollFrom_quiet cmdId env t pint hpi henv (⌈t / pint⌉₊) 0 none (by omega) rfl
  · have h1 : (⌈t / pint⌉₊ : ℚ) < t / pint + 1 :=
      Nat.ceil_lt_add_one (div_nonneg ht hpi.le)
    have h2 := mul_lt_mul_of_pos_right h1 hpi
    rwa [add_mul, one_mul, div_mul_cancel₀ _ (ne_of_gt hpi)] at h2

/-- Witness for C4: a host that never writes a response. -/
theorem claim4_witness :
    (0 : ℚ) < 1 ∧ (0 : ℚ) ≤ 1
    ∧ (∀ m : ℕ, quietCycle ((fun _ => none) m) "c4")
    ∧ (send_command "ping" none "c4" "t0" ["x"] ⟨none, [], none⟩ .ok
          (fun _ => none) 1 1 one_pos = .ok (timeoutJson "c4")
      ∧ jget (timeoutJson "c4") "success" = some (.bool false)
      ∧ jget (timeoutJson "c4") "error" = some (.str timeoutMsg)
      ∧ (⌈(1 : ℚ) / 1⌉₊ : ℚ) * 1 < 1 + 1) :=
  ⟨one_pos, zero_le_one, fun m => rfl,
    claim4_timeout_bound "ping" none "c4" "t0" ["x"] ⟨none, [], none⟩
      (fun _ => none) 1 1 one_pos zero_le_one (fun m => rfl)⟩

/-- Claim C5: when the write-and-rename block raises an OS-level error, the
call immediately returns the failure outcome — success false with the
diagnostic error string — without entering the poll loop (the result does not
depend on the host environment) and without retrying. -/
theorem claim5_publish_failure_immediate (action : String)
    (params : Option (List (String × JsonVal))) (cmdId tmpName : String)
    (chunks : List String) (fs : Fs) (e : String)
    (env : ℕ → Option RspContent) (t pint : ℚ) (hpi : 0 < pint) :
    send_command action params cmdId tmpName chunks fs (.osError e) env t pint hpi
      = .ok (writeFailJson cmdId e)
    ∧ jget (writeFailJson cmdId e) "success" = some (.bool false)
    ∧ jget (writeFailJson cmdId e) "error"
        = some (.str ("Failed to write command file: " ++ e))
    ∧ (∀ env2, send_command action params cmdId tmpName chunks fs (.osError e)
          env2 t pint hpi
        = send_command action params cmdId tmpName chunks fs (.osError e)
          env t pint hpi) :=
  ⟨rfl, rfl, rfl, fun env2 => rfl⟩

/-- Witness for C5 at a concrete failing call. -/
theorem claim5_witness :
    (0 : ℚ) < 1
    ∧ (send_command "ping" none "c5" "t0" [] ⟨none, [], none⟩
          (.osError "disk full") (fun _ => none) 1 1 one_pos
        = .ok (writeFailJson "c5" "disk full")
      ∧ jget (writeFailJson "c5" "disk full") "success" = some (.bool false)
      ∧ jget (writeFailJson "c5" "disk full") "error"
          = some (.str ("Failed to write command file: " ++ "disk full"))
      ∧ (∀ env2, send_command "ping" none "c5" "t0" [] ⟨none, [], none⟩
            (.osError "disk full") env2 1 1 one_pos
          = send_command "ping" none "c5" "t0" [] ⟨none, [], none⟩
            (.osError "disk full") (fun _ => none) 1 1 one_pos)) :=
  ⟨one_pos, claim5_publish_failure_immediate "ping" none "c5" "t0" []
    ⟨none, [], none⟩ "disk full" (fun _ => none) 1 1 one_pos⟩

/-- Claim C6: a poll cycle whose response file fails to parse is consumed and
ignored, a cycle whose read raises an I/O error is ignored with the file left
in place, and in either case polling continues; a malformed response never
becomes the result, and when every cycle is absent, malformed or unreadable
the call fails with exactly the synthesized timeout outcome. -/
theorem claim6_malformed_ignored (action : String)
    (params : Option (List (String × JsonVal))) (cmdId tmpName : String)
    (chunks : List String) (fs : Fs) (env : ℕ → Option RspContent)
    (t pint : ℚ) (hpi : 0 < pint)
    (henv : ∀ m, env m = none ∨ env m = some .badJson ∨ env m = some .unreadable) :
    pollCycle (some .badJson) cmdId = (none, none)
    ∧ pollCycle (some .unreadable) cmdId = (none, some .unreadable)
    ∧ send_command action params cmdId tmpName chunks fs .ok env t pint hpi
        = .ok (timeoutJson cmdId) := by
  refine ⟨rfl, rfl, ?_⟩
  have hq : ∀ m, quietCycle (env m) cmdId := by
    intro m
    rcases henv m with hcase | hcase | hcase <;> rw [hcase] <;> rfl
  have hr : (applyOps fs (publishOps tmpName chunks)).rsp = none := by
    rw [applyOps_publish]
  simp only [send_command]
  rw [hr]
  exact pollFrom_quiet cmdId env t pint hpi hq (⌈t / pint⌉₊) 0 none (by omega) rfl

/-- Witness for C6: a host that writes malformed content at every cycle. -/
theorem claim6_witness :
    (0 : ℚ) < 1
    ∧ (∀ m : ℕ, (fun (_ : ℕ) => some RspContent.badJson) m = none ∨
        (fun (_ : ℕ) => some RspContent.badJson) m = some .badJson ∨
        (fun (_ : ℕ) => some RspContent.badJson) m = some .unreadable)
    ∧ (pollCycle (some .badJson) "c6" = (none, none)
      ∧ pollCycle (some .unreadable) "c6" = (none, some .unreadable)
      ∧ send_command "ping" none "c6" "t0" ["x"] ⟨none, [], none⟩ .ok
          (fun _ => some .badJson) 1 1 one_pos = .ok (timeoutJson "c6")) :=
  ⟨one_pos, fun m => Or.inr (Or.inl rfl),
    claim6_malformed_ignored "ping" none "c6" "t0" ["x"] ⟨none, [], none⟩
      (fun _ => some .badJson) 1 1 one_pos (fun m => Or.inr (Or.inl rfl))⟩

/-- A host that answers with valid JSON that is not an object. -/
def envNonObjArr : ℕ → Option RspContent := fun _ => some (.val (.arr []))

/-- Counterexample to claim C7 as stated: when the response file holds valid
JSON that is not an object, `response.get` raises `AttributeError`, which the
handler around the read does not catch, so the call raises instead of
returning a structured outcome. -/
theorem claim7_counterexample :
    send_command "ping" none "cid0" "tmp0" [] ⟨none, [], none⟩ .ok envNonObjArr 1 1
      one_pos = .error .attributeError := by
  have hr : (applyOps (⟨none, [], none⟩ : Fs) (publishOps "tmp0" [])).rsp = none := rfl
  simp only [send_command]
  rw [hr, pollFrom, dif_pos (by norm_num)]
  rfl

/-- Claim C7, amended: for any action, params, publish outcome and any host
behaviour in which every response file content that parses as JSON is an
object, the call never raises: it returns a structured value (and on the
failure paths that value carries a human-readable error string, as
established for the publish-failure and timeout outcomes). Response contents
that parse to non-objects are excluded: they make `response.get` raise
`AttributeError`. -/
theorem claim7_no_uncaught_for_object_responses (action : String)
    (params : Option (List (String × JsonVal))) (cmdId tmpName : String)
    (chunks : List String) (fs : Fs) (pub : PubResult)
    (env : ℕ → Option RspContent) (t pint : ℚ) (hpi : 0 < pint)
    (henv : ∀ m j, env m = some (.val j) → ∃ kvs, j = .obj kvs) :
    ∃ j, send_command action params cmdId tmpName chunks fs pub env t pint hpi
      = .ok j := by
  cases pub with
  | osError e => exact ⟨writeFailJson cmdId e, rfl⟩
  | ok =>
      have hr : (applyOps fs (publishOps tmpName chunks)).rsp = none := by
        rw [applyOps_publish]
      simp only [send_command]
      rw [hr]
      exact pollFrom_no_raise cmdId env t pint hpi henv (⌈t / pint⌉₊) 0 none
        (by omega) (Or.inl rfl)

/-- Witness for the amended C7: a host that answers the first cycle with a
matching object response. -/
theorem claim7_witness :
    (0 : ℚ) < 1
    ∧ (∀ m j, (fun (_ : ℕ) => some (RspContent.val (.obj [("id", JsonVal.str "c7")]))) m
          = some (.val j) → ∃ kvs, j = JsonVal.obj kvs)
    ∧ ∃ j, send_command "ping" none "c7" "t0" ["x"] ⟨none, [], none⟩ .ok
        (fun _ => some (.val (.obj [("id", .str "c7")]))) 1 1 one_pos = .ok j :=
  ⟨one_pos,
    fun m j hj => ⟨[("id", .str "c7")], by cases hj; rfl⟩,
    claim7_no_uncaught_for_object_responses "ping" none "c7" "t0" ["x"]
      ⟨none, [], none⟩ .ok (fun _ => some (.val (.obj [("id", .str "c7")]))) 1 1 one_pos
      (fun m j hj => ⟨[("id", .str "c7")], by cases hj; rfl⟩)⟩

/-- Counterexample to claim C8 as stated: merging `["a", "b"]` into an empty
config creates the intermediate container `"a"`; the symmetric removal
deletes only the leaf `"b"`, so the file is left with top-level key set
`["a"]`, not its pre-merge (empty) key set. -/
theorem claim8_counterexample :
    merge_json_config (.valid (.obj [])) ["a", "b"] (.obj [])
      = .ok (.valid (.obj [("a", .obj [("b", .obj [])])]), true)
    ∧ remove_json_config_key (.valid (.obj [("a", .obj [("b", .obj [])])])) ["a", "b"]
      = .ok (.valid (.obj [("a", .obj [])]), true)
    ∧ objKeys (.obj [("a", .obj [])]) ≠ objKeys (.obj []) := by
  refine ⟨rfl, rfl, ?_⟩
  intro hcon
  simp [objKeys] at hcon

/-- Claim C8, amended: the merge is idempotent — whenever a call completes
without a Python error, repeating it with the same key path and value is a
no-op that returns false and leaves the file state unchanged — and removal
after a merge restores the exact pre-merge configuration (hence its key set)
when every intermediate path key already exists as an object and the final
key is absent; when the merge has to create intermediate containers, removal
deletes only the final key, so the pre-merge key set is not restored. -/
theorem claim8_merge_idem_and_fresh_reversible (fs fs2 : FileState)
    (kp : List String) (v c : JsonVal) (b : Bool)
    (hv : jsonWF v = true)
    (h1 : merge_json_config fs kp v = .ok (fs2, b))
    (h2 : freshLeaf c kp = true) :
    merge_json_config fs2 kp v = .ok (fs2, false)
    ∧ ∃ c2, merge_json_config (.valid c) kp v = .ok (.valid c2, true)
        ∧ remove_json_config_key (.valid c2) kp = .ok (.valid c, true) := by
  have hveq : pyEq v v = true := pyEq_refl v hv
  constructor
  · cases hrc : readConfig fs with
    | none =>
        simp only [merge_json_config, hrc] at h1
        obtain ⟨rfl, rfl⟩ : fs = fs2 ∧ false = b := by simpa using h1
        simp [merge_json_config, hrc]
    | some config =>
        simp only [merge_json_config, hrc] at h1
        cases hmi : mergeInto config kp v with
        | error e => simp [hmi] at h1
        | ok p =>
            obtain ⟨config2, m⟩ := p
            rw [hmi] at h1
            cases m with
            | false =>
                simp only [if_neg Bool.false_ne_true] at h1
                obtain ⟨rfl, rfl⟩ : fs = fs2 ∧ false = b := by simpa using h1
                simp only [merge_json_config, hrc, hmi]
                simp
            | true =>
                simp only [if_pos rfl] at h1
                obtain ⟨rfl, rfl⟩ : FileState.valid config2 = fs2 ∧ true = b := by
                  simpa using h1
                have hmi2 : mergeInto config2 kp v = .ok (config2, false) :=
                  mergeInto_idem v hveq kp config config2 true hmi
                simp only [merge_json_config, readConfig, hmi2]
                simp
  · obtain ⟨c2, hm, hrem⟩ := mergeInto_removeFrom v kp c h2
    refine ⟨c2, ?_, ?_⟩
    · simp only [merge_json_config, readConfig, hm]
      simp
    · simp only [remove_json_config_key, hrem]
      simp

/-- Witness for the amended C8 at a concrete config, path and value. -/
theorem claim8_witness :
    jsonWF (JsonVal.obj []) = true
    ∧ merge_json_config (.valid (.obj [])) ["a"] (.obj [])
        = .ok (.valid (.obj [("a", .obj [])]), true)
    ∧ freshLeaf (.obj [("x", JsonVal.str "y")]) ["a"] = true
    ∧ (merge_json_config (.valid (.obj [("a", .obj [])])) ["a"] (.obj [])
          = .ok (.valid (.obj [("a", .obj [])]), false)
      ∧ ∃ c2, merge_json_config (.valid (.obj [("x", JsonVal.str "y")])) ["a"] (.obj [])
            = .ok (.valid c2, true)
          ∧ remove_json_config_key (.valid c2) ["a"]
            = .ok (.valid (.obj [("x", JsonVal.str "y")]), true)) :=
  ⟨rfl, rfl, rfl,
    claim8_merge_idem_and_fresh_reversible (.valid (.obj []))
      (.valid (.obj [("a", .obj [])])) ["a"] (.obj []) (.obj [("x", .str "y")]) true
      rfl rfl rfl⟩

/-- Claim C9: the command envelope has exactly the three fields id, action
and params, in that order; when params is None or omitted the envelope
carries the empty object as its params field, and the params field is never
null. -/
theorem claim9_params_empty_object (cmdId action : String)
    (params : Option (List (String × JsonVal))) :
    objKeys (mkCmd cmdId action params) = ["id", "action", "params"]
    ∧ jget (mkCmd cmdId action none) "params" = some (.obj [])
    ∧ jget (mkCmd cmdId action params) "params" = some (.obj (orEmpty params))
    ∧ jget (mkCmd cmdId action params) "params" ≠ some .null := by
  refine ⟨rfl, rfl, rfl, ?_⟩
  intro hcon
  rw [show jget (mkCmd cmdId action params) "params" = some (.obj (orEmpty params))
    from rfl] at hcon
  simp at hcon

/-- Witness for C9 at a concrete call with params omitted. -/
theorem claim9_witness :
    objKeys (mkCmd "c9" "ping" none) = ["id", "action", "params"]
    ∧ jget (mkCmd "c9" "ping" none) "params" = some (.obj [])
    ∧ jget (mkCmd "c9" "ping" none) "params" = some (.obj (orEmpty none))
    ∧ jget (mkCmd "c9" "ping" none) "params" ≠ some .null :=
  claim9_params_empty_object "c9" "ping" none

/-- Claim C10: when the config file exists but its non-empty contents fail to
parse as JSON, or the file cannot be read, `merge_json_config` returns false
and leaves the file state entirely unchanged. -/
theorem claim10_unparseable_unchanged (kp : List String) (v : JsonVal) :
    merge_json_config .badJson kp v = .ok (.badJson, false)
    ∧ merge_json_config .unreadable kp v = .ok (.unreadable, false) :=
  ⟨rfl, rfl⟩

/-- Witness for C10 at a concrete key path and value. -/
theorem claim10_witness :
    merge_json_config .badJson ["mcpServers", "reaper"] (.obj [])
      = .ok (.badJson, false)
    ∧ merge_json_config .unreadable ["mcpServers", "reaper"] (.obj [])
      = .ok (.unreadable, false) :=
  claim10_unparseable_unchanged ["mcpServers", "reaper"] (.obj [])
